import Mathlib

/-
Verification of the DankOPS scheduling engine (src/dankops/engine.py and
src/dankops/config.py) against its natural-language specification.

Modelling conventions:
* Timestamps and durations are rationals (`ℚ`), standing in for Python floats;
  the arithmetic the engine performs (+, max, min, comparison) is exact on the
  values involved.
* Python dicts are association lists `List (String × α)`; `lookup` models
  `dict.get`, `setKey` models item assignment, `lookupD` models `.get(k, d)`.
* Randomness is made explicit: every `random.uniform(a, b)` draw becomes a
  parameter of the operation (a rational `u`, or a per-name oracle
  `String → ℚ` where the code draws once per command).  Theorems that depend
  on the distribution carry the hypothesis `a ≤ u ∧ u ≤ b`, which is exactly
  what `random.uniform` guarantees when `a ≤ b`.
* The async machinery (task spawning, lock, sleeps) is abstracted to state
  transitions; sleep durations computed by the code are recorded in the loop
  outcome so the claims about them remain checkable.
* `AppConfig` keeps only the fields the engine and `normalize_config` read;
  the remaining fields of the Python dataclass (bot token, channel ids, UI
  flags, reply-watch settings) are plumbing never consulted by the scheduler.
-/

namespace DankOPS

/-- Association-list lookup, modelling Python `dict.get(k)` / `k in d`. -/
def lookup {α : Type} (l : List (String × α)) (k : String) : Option α :=
  match l with
  | [] => none
  | (k', v) :: rest => if k' = k then some v else lookup rest k

/-- Modelling Python `dict.get(k, d)`. -/
def lookupD {α : Type} (l : List (String × α)) (k : String) (d : α) : α :=
  (lookup l k).getD d

/-- Modelling Python `k in d`. -/
def hasKey {α : Type} (l : List (String × α)) (k : String) : Bool :=
  (lookup l k).isSome

/-- Modelling Python `d[k] = v`: replace the first binding of `k`, or append. -/
def setKey {α : Type} (l : List (String × α)) (k : String) (v : α) : List (String × α) :=
  match l with
  | [] => [(k, v)]
  | (k', v') :: rest => if k' = k then (k, v) :: rest else (k', v') :: setKey rest k v

/-- `config.CooldownWindow`: the global inter-send jitter window. -/
structure CooldownWindow where
  min_seconds : ℚ
  max_seconds : ℚ
deriving DecidableEq, Repr

/-- `config.CommandProfile`: one configured action. -/
structure CommandProfile where
  enabled : Bool
  command : String
  min_delay : ℚ
  max_delay : ℚ
deriving DecidableEq, Repr

/-- `config.AppConfig`, restricted to the fields the engine reads. -/
structure AppConfig where
  break_mode : Bool
  break_after_min_minutes : ℚ
  break_after_max_minutes : ℚ
  break_duration_min_minutes : ℚ
  break_duration_max_minutes : ℚ
  command_interval : CooldownWindow
  commands : List (String × CommandProfile)
deriving DecidableEq, Repr

/-- The per-profile part of `config.normalize_config`: raise `max_delay`
to `min_delay` when violated. -/
def normalizeProfile (p : CommandProfile) : CommandProfile :=
  if p.max_delay < p.min_delay then { p with max_delay := p.min_delay } else p

/-- `config.normalize_config`: raise every `max` below its `min` to the `min`;
never rejects. -/
def normalize_config (c : AppConfig) : AppConfig :=
  { c with
    command_interval :=
      if c.command_interval.max_seconds < c.command_interval.min_seconds then
        { c.command_interval with max_seconds := c.command_interval.min_seconds }
      else c.command_interval,
    break_after_max_minutes :=
      if c.break_after_max_minutes < c.break_after_min_minutes then
        c.break_after_min_minutes
      else c.break_after_max_minutes,
    break_duration_max_minutes :=
      if c.break_duration_max_minutes < c.break_duration_min_minutes then
        c.break_duration_min_minutes
      else c.break_duration_max_minutes,
    commands := c.commands.map (fun np => (np.1, normalizeProfile np.2)) }

/-- The mutable state of `engine.FarmEngine` (dict/counter fields plus the
flags; the asyncio task and lock are abstracted away). -/
structure EngineState where
  config : AppConfig
  running : Bool
  sent_total : ℕ
  sent_by_command : List (String × ℕ)
  next_due_by_command : List (String × ℚ)
  last_sent_ts : ℚ
  on_break : Bool
deriving DecidableEq, Repr

/-- `FarmEngine.__init__`: every configured command gets initial due time
`now + max(1.0, uniform(min_delay, max_delay))`; `draws name` is the
`random.uniform` result for `name`. -/
def initDue (commands : List (String × CommandProfile)) (now : ℚ)
    (draws : String → ℚ) : List (String × ℚ) :=
  commands.map (fun np => (np.1, now + max 1 (draws np.1)))

/-- `FarmEngine.__init__`: counters zero, not running, not on break. -/
def initEngine (config : AppConfig) (now : ℚ) (draws : String → ℚ) : EngineState :=
  { config := config
    running := false
    sent_total := 0
    sent_by_command := []
    next_due_by_command := initDue config.commands now draws
    last_sent_ts := 0
    on_break := false }

/-- The loop of `FarmEngine.update_config`: for each configured command not
already tracked, insert `now + uniform(min_delay, max_delay)` (note: no
`max(1.0, ·)` floor in the source). -/
def updateDue (due : List (String × ℚ)) :
    List (String × CommandProfile) → ℚ → (String → ℚ) → List (String × ℚ)
  | [], _, _ => due
  | (n, _) :: rest, now, draws =>
      updateDue (if hasKey due n then due else setKey due n (now + draws n)) rest now draws

/-- `FarmEngine.update_config`: swap the config, keep existing due times,
seed due times for newly introduced commands. -/
def update_config (s : EngineState) (config : AppConfig) (now : ℚ)
    (draws : String → ℚ) : EngineState :=
  { s with
    config := config
    next_due_by_command := updateDue s.next_due_by_command config.commands now draws }

/-- `FarmEngine.start`: no-op returning `false` if already running, else mark
running and spawn the loop. -/
def start (s : EngineState) : EngineState × Bool :=
  if s.running then (s, false) else ({ s with running := true }, true)

/-- `FarmEngine.stop`: no-op returning `false` if not running, else clear
`running`, cancel the loop task, and reset `on_break`. -/
def stop (s : EngineState) : EngineState × Bool :=
  if s.running then ({ s with running := false, on_break := false }, true)
  else (s, false)

/-- Python `defaultdict(int)` increment `d[k] += 1`. -/
def bump (l : List (String × ℕ)) (k : String) : List (String × ℕ) :=
  setKey l k (lookupD l k 0 + 1)

/-- The four mutations shared verbatim by `run_once` (engine.py lines 78-81)
and the loop's send branch (lines 110-113): bump the counters, record
`last_sent_ts`, and reschedule `next_due[name] = sent_at + u` where `u` is
the `random.uniform(min_delay, max_delay)` draw. -/
def sendAndReschedule (s : EngineState) (name : String) (sent_at u : ℚ) : EngineState :=
  { s with
    sent_total := s.sent_total + 1
    sent_by_command := bump s.sent_by_command name
    last_sent_ts := sent_at
    next_due_by_command := setKey s.next_due_by_command name (sent_at + u) }

/-- Outcome of a `run_once` call.  `sendFailed` is the SendFailure raised by
`self._send_message` propagating to the caller; it carries the engine state
at the raise point (no mutation has happened yet). -/
inductive RunOnceResult where
  | notSent (s : EngineState)
  | sent (s : EngineState)
  | sendFailed (s : EngineState)
deriving DecidableEq, Repr

/-- The engine state after a `run_once` call, whatever the outcome. -/
def RunOnceResult.state : RunOnceResult → EngineState
  | .notSent s => s
  | .sent s => s
  | .sendFailed s => s

/-- `FarmEngine.run_once`: unknown or disabled commands return `False`
untouched; otherwise send (which may raise), then apply the shared
send-and-reschedule mutations.  `now` is `time.monotonic()` at line 80 and
`u` the uniform draw at line 81. -/
def run_once (s : EngineState) (command_name : String) (sendOk : Bool)
    (now u : ℚ) : RunOnceResult :=
  match lookup s.config.commands command_name with
  | none => .notSent s
  | some profile =>
    if profile.enabled = false then .notSent s
    else if sendOk = false then .sendFailed s
    else .sent (sendAndReschedule s command_name now u)

/-- `FarmEngine._next_break_start`: `now + max(1.0, minutes * 60)` where
`minutes` is the uniform draw over the break-after window. -/
def nextBreakStart (now minutes : ℚ) : ℚ :=
  now + max 1 (minutes * 60)

/-- `FarmEngine._pick_due_command` before the shuffle: enabled commands whose
tracked due time (defaulting to `now`) is `≤ now`, in config order. -/
def dueCommands (s : EngineState) (now : ℚ) : List String :=
  ((s.config.commands.filter
      (fun np => np.2.enabled && decide (lookupD s.next_due_by_command np.1 now ≤ now))).map
    Prod.fst)

/-- `FarmEngine._seconds_until_next_due`: `max(0.2, min(due times) - now)`
over enabled commands (missing entries default to `now + 5`), or `1.0` if
none are enabled. -/
def secondsUntilNextDue (s : EngineState) (now : ℚ) : ℚ :=
  match (s.config.commands.filter (fun np => np.2.enabled)).map
      (fun np => lookupD s.next_due_by_command np.1 (now + 5)) with
  | [] => 1
  | x :: xs => max (1/5) (xs.foldl min x - now)

/-- What one iteration of `FarmEngine._run_loop` did; sleep durations the
code computes are recorded. -/
inductive LoopOutcome where
  | exited
  | tookBreak (sleep : ℚ)
  | sentCmd (name : String) (sleep : ℚ)
  | crashed
  | idled (sleep : ℚ)
deriving DecidableEq, Repr

/-- Result of one loop iteration: the engine state, the loop-local
`next_break_start`, and what happened. -/
structure LoopResult where
  state : EngineState
  next_break_start : ℚ
  outcome : LoopOutcome
deriving DecidableEq, Repr

/-- One iteration of the `while self._running` body of `FarmEngine._run_loop`.
`nbs` is the loop-local `next_break_start`, `now` the `time.monotonic()` at
the top of the iteration, `pickIdx` the position in the due list that
`random.shuffle` moved to the front, `sendOk` whether `self._send_message`
succeeds, `sent_at` the `time.monotonic()` after a successful send, `u` the
cooldown draw, `jitterDraw` the command-interval draw, `breakDraw` the
break-duration draw (minutes), `wake` the `time.monotonic()` after the break
sleep and `nbsDraw` the break-after draw (minutes).  A send failure has no
handler in the source: the exception escapes the task (`crashed`) with no
state mutated in that iteration. -/
def loopStep (s : EngineState) (nbs now : ℚ) (pickIdx : ℕ) (sendOk : Bool)
    (sent_at u jitterDraw breakDraw wake nbsDraw : ℚ) : LoopResult :=
  if s.running = false then
    { state := s, next_break_start := nbs, outcome := .exited }
  else if s.config.break_mode = true ∧ nbs ≤ now then
    { state := { s with on_break := false }
      next_break_start := nextBreakStart wake nbsDraw
      outcome := .tookBreak (max 1 (breakDraw * 60)) }
  else
    match (dueCommands s now).get? pickIdx with
    | some name =>
        if sendOk then
          { state := sendAndReschedule s name sent_at u
            next_break_start := nbs
            outcome := .sentCmd name (max (1/10) jitterDraw) }
        else
          { state := s, next_break_start := nbs, outcome := .crashed }
    | none =>
        { state := s, next_break_start := nbs
          outcome := .idled (max (1/5) (min (5/2) (secondsUntilNextDue s now))) }

/-! ### Concrete fixtures used by examples, witnesses and counterexamples -/

/-- The default `beg` profile from `config.default_commands`. -/
def begProfile : CommandProfile := ⟨true, "pls beg", 45, 60⟩

/-- A profile with a zero-width cooldown window, `min_delay = max_delay = 0`
(legal per the data model: the only invariant is `max_delay ≥ min_delay`). -/
def zeroProfile : CommandProfile := ⟨true, "pls zero", 0, 0⟩

/-- A disabled profile, as `search` is by default. -/
def searchProfile : CommandProfile := ⟨false, "pls search", 40, 60⟩

/-- A profile violating the normalization invariant: `max_delay < min_delay`. -/
def badProfile : CommandProfile := ⟨true, "pls bad", 45, 10⟩

/-- A small configuration with one enabled and one disabled command. -/
def cfg0 : AppConfig :=
  { break_mode := false
    break_after_min_minutes := 45
    break_after_max_minutes := 120
    break_duration_min_minutes := 10
    break_duration_max_minutes := 25
    command_interval := ⟨2, 5⟩
    commands := [("beg", begProfile), ("search", searchProfile)] }

/-- `cfg0` with a single zero-cooldown command. -/
def cfgZero : AppConfig := { cfg0 with commands := [("zero", zeroProfile)] }

/-- `cfg0` with a command whose profile violates `max_delay ≥ min_delay`. -/
def cfgBad : AppConfig := { cfg0 with commands := [("bad", badProfile)] }

/-- A constant draw oracle. -/
def dconst (q : ℚ) : String → ℚ := fun _ => q

/-- A running engine on `cfg0` whose `beg` is already due at time 100. -/
def sReady : EngineState :=
  { config := cfg0
    running := true
    sent_total := 0
    sent_by_command := []
    next_due_by_command := [("beg", 90), ("search", 90)]
    last_sent_ts := 0
    on_break := false }

/-- A running engine on `cfgZero` whose `zero` action is already due. -/
def sZero : EngineState :=
  { config := cfgZero
    running := true
    sent_total := 0
    sent_by_command := []
    next_due_by_command := [("zero", 90)]
    last_sent_ts := 0
    on_break := false }

/-- `cfg0` extended with the zero-cooldown command, for `update_config`. -/
def cfgBoth : AppConfig :=
  { cfg0 with commands := [("beg", begProfile), ("zero", zeroProfile)] }

/-- A state identical to `sReady` except the break flag is set. -/
def sOnBreak : EngineState := { sReady with on_break := true }

/-- `cfg0` with break mode enabled. -/
def cfgBreak : AppConfig := { cfg0 with break_mode := true }

/-- A running engine on `cfgBreak`, past its `next_break_start`. -/
def sBreakMode : EngineState := { sReady with config := cfgBreak }

/-- Sum of all per-command counters. -/
def sumCounters (l : List (String × ℕ)) : ℕ :=
  l.foldr (fun p acc => p.2 + acc) 0

/-- Everything a caller or the loop can do to the engine state, as one step
relation: `update_config`, `start`, `stop`, a `run_once` call (any outcome),
or one loop iteration (any branch). -/
inductive Step : EngineState → EngineState → Prop where
  | updateCfg (s : EngineState) (cfg : AppConfig) (now : ℚ) (draws : String → ℚ) :
      Step s (update_config s cfg now draws)
  | startOp (s : EngineState) : Step s (start s).1
  | stopOp (s : EngineState) : Step s (stop s).1
  | runOnce (s : EngineState) (name : String) (sendOk : Bool) (now u : ℚ) :
      Step s (run_once s name sendOk now u).state
  | loopIter (s : EngineState) (nbs now : ℚ) (pickIdx : ℕ) (sendOk : Bool)
      (t u jd bd wake nd : ℚ) :
      Step s (loopStep s nbs now pickIdx sendOk t u jd bd wake nd).state

/-- Reachability from a state by any sequence of engine operations. -/
inductive Reachable : EngineState → EngineState → Prop where
  | refl (s : EngineState) : Reachable s s
  | tail {s t w : EngineState} : Reachable s t → Step t w → Reachable s w

example : initEngine cfg0 100 (dconst 50) =
    { config := cfg0, running := false, sent_total := 0, sent_by_command := []
      next_due_by_command := [("beg", 150), ("search", 150)]
      last_sent_ts := 0, on_break := false } := by
  norm_num [initEngine, initDue, cfg0, begProfile, searchProfile, dconst]

example : dueCommands sReady 100 = ["beg"] := by
  norm_num [dueCommands, sReady, cfg0, begProfile, searchProfile, lookupD, lookup]

example : run_once sReady "beg" true 100 50 =
    .sent { sReady with
      sent_total := 1
      sent_by_command := [("beg", 1)]
      last_sent_ts := 100
      next_due_by_command := [("beg", 150), ("search", 90)] } := by
  norm_num [run_once, sReady, cfg0, begProfile, lookup, sendAndReschedule, bump,
    lookupD, setKey]

/-! ### Helper lemmas about the association-list model -/

theorem lookup_setKey {α : Type} (l : List (String × α)) (k n : String) (v : α) :
    lookup (setKey l k v) n = if k = n then some v else lookup l n := by
  induction l with
  | nil => simp [setKey, lookup]
  | cons hd tl ih =>
    obtain ⟨k', v'⟩ := hd
    by_cases hk : k' = k
    · subst hk
      simp only [setKey, if_pos rfl, lookup]
      by_cases hn : k' = n <;> simp [hn]
    · simp only [setKey, if_neg hk, lookup, ih]
      by_cases hn : k' = n
      · subst hn
        have hkn : ¬ k = k' := fun h => hk h.symm
        simp [hkn]
      · simp [hn]

theorem lookupD_setKey {α : Type} (l : List (String × α)) (k n : String) (v d : α) :
    lookupD (setKey l k v) n d = if k = n then v else lookupD l n d := by
  simp only [lookupD, lookup_setKey]
  split <;> rfl

theorem hasKey_setKey {α : Type} (l : List (String × α)) (k n : String) (v : α) :
    hasKey (setKey l k v) n = (if k = n then true else hasKey l n) := by
  simp only [hasKey, lookup_setKey]
  split <;> rfl

theorem sumCounters_setKey_eq (l : List (String × ℕ)) (k : String) (v : ℕ) :
    sumCounters (setKey l k v) + lookupD l k 0 = sumCounters l + v := by
  induction l with
  | nil => simp [setKey, sumCounters, lookupD, lookup, Nat.add_comm]
  | cons hd tl ih =>
    obtain ⟨k', c⟩ := hd
    by_cases hk : k' = k
    · subst hk
      simp only [setKey, if_pos rfl, sumCounters, List.foldr, lookupD, lookup, if_pos rfl,
        eq_self_iff_true, if_true, Option.getD_some]
      omega
    · simp only [setKey, if_neg hk, sumCounters, List.foldr, lookupD, lookup, if_neg hk]
      simp only [sumCounters, lookupD] at ih
      omega

theorem sumCounters_bump (l : List (String × ℕ)) (k : String) :
    sumCounters (bump l k) = sumCounters l + 1 := by
  have h := sumCounters_setKey_eq l k (lookupD l k 0 + 1)
  unfold bump
  omega

theorem lookupD_bump_self (l : List (String × ℕ)) (k : String) :
    lookupD (bump l k) k 0 = lookupD l k 0 + 1 := by
  simp [bump, lookupD_setKey]

theorem lookupD_bump_ne (l : List (String × ℕ)) (k m : String) (h : m ≠ k) :
    lookupD (bump l k) m 0 = lookupD l m 0 := by
  simp [bump, lookupD_setKey, Ne.symm h]

theorem lookup_initDue (cmds : List (String × CommandProfile)) (now : ℚ)
    (draws : String → ℚ) (n : String) :
    lookup (initDue cmds now draws) n =
      (lookup cmds n).map (fun _ => now + max 1 (draws n)) := by
  induction cmds with
  | nil => simp [initDue, lookup]
  | cons hd tl ih =>
    obtain ⟨k, p⟩ := hd
    simp only [initDue, List.map, lookup]
    by_cases hk : k = n
    · subst hk; simp
    · simp only [if_neg hk]
      simpa [initDue] using ih

theorem lookup_updateDue_existing (cmds : List (String × CommandProfile))
    (due : List (String × ℚ)) (now : ℚ) (draws : String → ℚ) (n : String)
    (h : hasKey due n = true) :
    lookup (updateDue due cmds now draws) n = lookup due n := by
  induction cmds generalizing due with
  | nil => simp [updateDue]
  | cons hd tl ih =>
    obtain ⟨k, p⟩ := hd
    simp only [updateDue]
    by_cases hdk : hasKey due k = true
    · rw [if_pos hdk]
      exact ih due h
    · have hkn : k ≠ n := by
        intro he
        subst he
        exact hdk h
      rw [if_neg hdk]
      have h' : hasKey (setKey due k (now + draws k)) n = true := by
        simp [hasKey_setKey, hkn, h]
      rw [ih _ h', lookup_setKey, if_neg hkn]

theorem lookup_updateDue_new (cmds : List (String × CommandProfile))
    (due : List (String × ℚ)) (now : ℚ) (draws : String → ℚ) (n : String)
    (hnew : hasKey due n = false) (hmem : hasKey cmds n = true) :
    lookup (updateDue due cmds now draws) n = some (now + draws n) := by
  induction cmds generalizing due with
  | nil => simp [hasKey, lookup] at hmem
  | cons hd tl ih =>
    obtain ⟨k, p⟩ := hd
    simp only [updateDue]
    by_cases hk : k = n
    · subst hk
      have hdk : ¬ hasKey due k = true := by simp [hnew]
      rw [if_neg hdk]
      have h' : hasKey (setKey due k (now + draws k)) k = true := by
        simp [hasKey_setKey]
      rw [lookup_updateDue_existing tl _ now draws k h', lookup_setKey, if_pos rfl]
    · have hmem' : hasKey tl n = true := by
        simpa [hasKey, lookup, hk] using hmem
      by_cases hdk : hasKey due k = true
      · rw [if_pos hdk]
        exact ih due hnew hmem'
      · rw [if_neg hdk]
        refine ih (setKey due k (now + draws k)) ?_ hmem'
        simp [hasKey_setKey, hk, hnew]

theorem lookup_map_normalize (cmds : List (String × CommandProfile)) (n : String) :
    lookup (cmds.map (fun np => (np.1, normalizeProfile np.2))) n
      = (lookup cmds n).map normalizeProfile := by
  induction cmds with
  | nil => simp [lookup]
  | cons hd tl ih =>
    obtain ⟨k, p⟩ := hd
    simp only [List.map, lookup]
    by_cases hk : k = n
    · simp [hk]
    · simp [hk, ih]

theorem normalizeProfile_le (p : CommandProfile) :
    (normalizeProfile p).min_delay ≤ (normalizeProfile p).max_delay := by
  unfold normalizeProfile
  split <;> simp_all

/-- Successful-send equation for `run_once` on a known enabled action. -/
theorem run_once_sent (s : EngineState) (name : String) (p : CommandProfile)
    (now u : ℚ) (hp : lookup s.config.commands name = some p)
    (hen : p.enabled = true) :
    run_once s name true now u = .sent (sendAndReschedule s name now u) := by
  unfold run_once
  rw [hp]
  simp [hen]

/-- Guard equation for `run_once`: unknown or disabled names short-circuit. -/
theorem run_once_skip (s : EngineState) (name : String) (sendOk : Bool)
    (now u : ℚ)
    (h : lookup s.config.commands name = none ∨
         ∃ p, lookup s.config.commands name = some p ∧ p.enabled = false) :
    run_once s name sendOk now u = .notSent s := by
  unfold run_once
  rcases h with h | ⟨p, hp, hen⟩
  · simp [h]
  · simp [hp, hen]

/-- Failure equation for `run_once`: a raising send on a known enabled action
escapes before any mutation. -/
theorem run_once_failed (s : EngineState) (name : String) (p : CommandProfile)
    (now u : ℚ) (hp : lookup s.config.commands name = some p)
    (hen : p.enabled = true) :
    run_once s name false now u = .sendFailed s := by
  unfold run_once
  simp [hp, hen]

/-! Branch lemmas for `loopStep`, one per arm of `_run_loop`'s body. -/

theorem loopStep_sent (s : EngineState) (nbs now : ℚ) (pickIdx : ℕ)
    (t u jd bd wake nd : ℚ) (name : String)
    (hrun : s.running = true)
    (hbrk : ¬ (s.config.break_mode = true ∧ nbs ≤ now))
    (hpick : (dueCommands s now).get? pickIdx = some name) :
    loopStep s nbs now pickIdx true t u jd bd wake nd =
      { state := sendAndReschedule s name t u
        next_break_start := nbs
        outcome := .sentCmd name (max (1/10) jd) } := by
  unfold loopStep
  rw [hrun, hpick]
  simp [hbrk]

theorem loopStep_crashed (s : EngineState) (nbs now : ℚ) (pickIdx : ℕ)
    (t u jd bd wake nd : ℚ) (name : String)
    (hrun : s.running = true)
    (hbrk : ¬ (s.config.break_mode = true ∧ nbs ≤ now))
    (hpick : (dueCommands s now).get? pickIdx = some name) :
    loopStep s nbs now pickIdx false t u jd bd wake nd =
      { state := s, next_break_start := nbs, outcome := .crashed } := by
  unfold loopStep
  rw [hrun, hpick]
  simp [hbrk]

theorem loopStep_break (s : EngineState) (nbs now : ℚ) (pickIdx : ℕ)
    (sendOk : Bool) (t u jd bd wake nd : ℚ)
    (hrun : s.running = true)
    (hbrk : s.config.break_mode = true ∧ nbs ≤ now) :
    loopStep s nbs now pickIdx sendOk t u jd bd wake nd =
      { state := { s with on_break := false }
        next_break_start := nextBreakStart wake nd
        outcome := .tookBreak (max 1 (bd * 60)) } := by
  unfold loopStep
  rw [hrun]
  simp [hbrk.1, hbrk.2]

theorem loopStep_idle (s : EngineState) (nbs now : ℚ) (pickIdx : ℕ)
    (sendOk : Bool) (t u jd bd wake nd : ℚ)
    (hrun : s.running = true)
    (hbrk : ¬ (s.config.break_mode = true ∧ nbs ≤ now))
    (hpick : (dueCommands s now).get? pickIdx = none) :
    loopStep s nbs now pickIdx sendOk t u jd bd wake nd =
      { state := s, next_break_start := nbs
        outcome := .idled (max (1/5) (min (5/2) (secondsUntilNextDue s now))) } := by
  unfold loopStep
  rw [hrun, hpick]
  simp [hbrk]

theorem loopStep_exited (s : EngineState) (nbs now : ℚ) (pickIdx : ℕ)
    (sendOk : Bool) (t u jd bd wake nd : ℚ)
    (hrun : s.running = false) :
    loopStep s nbs now pickIdx sendOk t u jd bd wake nd =
      { state := s, next_break_start := nbs, outcome := .exited } := by
  unfold loopStep
  rw [hrun]
  simp

/-! ### Claim theorems -/


/-- C7: `run_once` on a name absent from the configuration, or whose profile
is disabled, returns `false`, performs no send, and leaves the entire engine
state — `sent_total`, every per-action counter, `last_sent_ts`, and every
`next_due` entry — unchanged. -/
theorem run_once_unknown_or_disabled (s : EngineState) (name : String)
    (sendOk : Bool) (now u : ℚ)
    (h : lookup s.config.commands name = none ∨
         ∃ p, lookup s.config.commands name = some p ∧ p.enabled = false) :
    run_once s name sendOk now u = .notSent s :=
  run_once_skip s name sendOk now u h

/-- Witness for C7: `run_once` on the unknown name `"nonexistent"` and on the
disabled `"search"` both leave `sReady` untouched. -/
theorem run_once_unknown_or_disabled_witness :
    run_once sReady "nonexistent" true 100 50 = .notSent sReady ∧
    run_once sReady "search" true 100 50 = .notSent sReady :=
  ⟨run_once_unknown_or_disabled sReady "nonexistent" true 100 50
      (Or.inl (by decide)),
   run_once_unknown_or_disabled sReady "search" true 100 50
      (Or.inr ⟨searchProfile, by decide, rfl⟩)⟩

/-- C8: a send failure during `run_once` on a known, enabled action
propagates to the caller (result `sendFailed`) and the engine state is
exactly as before the call: no partial counter update, no `last_sent_ts`
change, no due-time change. -/
theorem run_once_send_failure_propagates (s : EngineState) (name : String)
    (p : CommandProfile) (now u : ℚ)
    (hp : lookup s.config.commands name = some p) (hen : p.enabled = true) :
    run_once s name false now u = .sendFailed s :=
  run_once_failed s name p now u hp hen

/-- Witness for C8: a failing send during `run_once "beg"` on `sReady`
propagates with the state unchanged. -/
theorem run_once_send_failure_propagates_witness :
    run_once sReady "beg" false 100 50 = .sendFailed sReady :=
  run_once_send_failure_propagates sReady "beg" begProfile 100 50
    (by decide) rfl

/-- C9: `start` returns `true` exactly when the engine is stopped and is a
no-op returning `false` when already running; `stop` returns `true` exactly
when running and is a no-op returning `false` otherwise; hence two
consecutive `start`s yield `(true, false)`, two consecutive `stop`s yield
`(true, false)`, and a successful `stop` resets `on_break` to `false`. -/
theorem start_stop_idempotent_control (s : EngineState) :
    ((start s).2 = !s.running) ∧
    ((stop s).2 = s.running) ∧
    (s.running = true → start s = (s, false)) ∧
    (s.running = false → stop s = (s, false)) ∧
    (s.running = false → (start s).2 = true ∧ (start (start s).1).2 = false) ∧
    (s.running = true →
      (stop s).2 = true ∧ (stop (stop s).1).2 = false ∧
      (stop s).1.on_break = false) := by
  cases hr : s.running <;> simp [start, stop, hr]

/-- Witness for C9: two consecutive `stop`s on the running `sReady` give
`(true, false)` and clear `on_break`; two consecutive `start`s on the
stopped `initEngine cfg0 100 (dconst 50)` give `(true, false)`. -/
theorem start_stop_idempotent_control_witness :
    ((stop sReady).2 = true ∧ (stop (stop sReady).1).2 = false ∧
      (stop sReady).1.on_break = false) ∧
    ((start (initEngine cfg0 100 (dconst 50))).2 = true ∧
      (start (start (initEngine cfg0 100 (dconst 50))).1).2 = false) :=
  ⟨(start_stop_idempotent_control sReady).2.2.2.2.2 rfl,
   (start_stop_idempotent_control (initEngine cfg0 100 (dconst 50))).2.2.2.2.1 rfl⟩

/-- C3: for every send of action `name` completing at time `t` (via `run_once`
or via the loop's send branch), the stored `next_due[name]` is `t + u` with
`u` the uniform draw, hence lies in `[t + min_delay, t + max_delay]` whenever
the profile satisfies `min_delay ≤ max_delay` (which makes `min ≤ u ≤ max`
the guarantee of `random.uniform`). -/
theorem cooldown_bound (s : EngineState) (name : String) (p : CommandProfile)
    (t u : ℚ) (hp : lookup s.config.commands name = some p)
    (hu1 : p.min_delay ≤ u) (hu2 : u ≤ p.max_delay) :
    (∀ s', run_once s name true t u = .sent s' →
       lookup s'.next_due_by_command name = some (t + u) ∧
       t + p.min_delay ≤ t + u ∧ t + u ≤ t + p.max_delay) ∧
    (∀ nbs now pickIdx jd bd wake nd,
       s.running = true →
       ¬ (s.config.break_mode = true ∧ nbs ≤ now) →
       (dueCommands s now).get? pickIdx = some name →
       lookup (loopStep s nbs now pickIdx true t u jd bd wake nd).state.next_due_by_command name
         = some (t + u) ∧
       t + p.min_delay ≤ t + u ∧ t + u ≤ t + p.max_delay) := by
  constructor
  · intro s' hrun
    by_cases hen : p.enabled = false
    · rw [run_once_skip s name true t u (Or.inr ⟨p, hp, hen⟩)] at hrun
      exact RunOnceResult.noConfusion hrun
    · have hen' : p.enabled = true := by revert hen; cases p.enabled <;> simp
      rw [run_once_sent s name p t u hp hen'] at hrun
      cases hrun
      refine ⟨?_, by linarith, by linarith⟩
      show lookup (setKey s.next_due_by_command name (t + u)) name = some (t + u)
      rw [lookup_setKey, if_pos rfl]
  · intro nbs now pickIdx jd bd wake nd hrun hbrk hpick
    rw [loopStep_sent s nbs now pickIdx t u jd bd wake nd name hrun hbrk hpick]
    refine ⟨?_, by linarith, by linarith⟩
    show lookup (setKey s.next_due_by_command name (t + u)) name = some (t + u)
    rw [lookup_setKey, if_pos rfl]

/-- Witness for C3: a `run_once "beg"` on `sReady` at time 100 with draw 50
stores due time 150 inside `[145, 160]`. -/
theorem cooldown_bound_witness :
    lookup (sendAndReschedule sReady "beg" 100 50).next_due_by_command "beg"
      = some (100 + 50) ∧
    100 + begProfile.min_delay ≤ 100 + 50 ∧
    (100 : ℚ) + 50 ≤ 100 + begProfile.max_delay :=
  (cooldown_bound sReady "beg" begProfile 100 50 (by decide)
      (by norm_num [begProfile]) (by norm_num [begProfile])).1
    (sendAndReschedule sReady "beg" 100 50) rfl

/-- Counterexample to C2: the claim says every due time assigned after a
successful send is `t + max(1s, uniform(min, max))`, hence at least `t + 1`.
For the zero-cooldown profile (`min_delay = max_delay = 0`) the uniform draw
is necessarily 0, and a successful `run_once` of `"zero"` completing at time
100 stores due time 100 — less than `100 + 1`: the post-send reschedule in
the source has no `max(1.0, ·)` floor. -/
theorem post_send_floor_counterexample :
    run_once sZero "zero" true 100 0 = .sent (sendAndReschedule sZero "zero" 100 0) ∧
    lookup (sendAndReschedule sZero "zero" 100 0).next_due_by_command "zero"
      = some 100 ∧
    ¬ ((100 : ℚ) + 1 ≤ 100) ∧
    zeroProfile.min_delay ≤ 0 ∧ (0 : ℚ) ≤ zeroProfile.max_delay := by
  refine ⟨rfl, ?_, by norm_num, by norm_num [zeroProfile], by norm_num [zeroProfile]⟩
  show lookup (setKey sZero.next_due_by_command "zero" (100 + 0)) "zero" = some 100
  rw [lookup_setKey, if_pos rfl]
  norm_num

/-- C2 amended: at construction every action's due time is
`now + max(1, uniform(min_delay, max_delay))`, hence at least `now + 1`; but
after a successful send (via `run_once` or the loop) the due time is
`sent_at + uniform(min_delay, max_delay)` with no 1-second floor, so it can
be less than one second in the future. -/
theorem due_time_rules (cfg : AppConfig) (now : ℚ) (draws : String → ℚ)
    (s : EngineState) (name : String) (p : CommandProfile) (t u : ℚ) :
    (lookup cfg.commands name = some p →
       lookup (initEngine cfg now draws).next_due_by_command name
         = some (now + max 1 (draws name)) ∧
       now + 1 ≤ now + max 1 (draws name)) ∧
    (∀ s', run_once s name true t u = .sent s' →
       s' = sendAndReschedule s name t u) ∧
    (lookup (sendAndReschedule s name t u).next_due_by_command name = some (t + u)) ∧
    (∀ nbs now2 pickIdx jd bd wake nd,
       s.running = true →
       ¬ (s.config.break_mode = true ∧ nbs ≤ now2) →
       (dueCommands s now2).get? pickIdx = some name →
       (loopStep s nbs now2 pickIdx true t u jd bd wake nd).state
         = sendAndReschedule s name t u) := by
  refine ⟨?_, ?_, ?_, ?_⟩
  · intro hp
    constructor
    · show lookup (initDue cfg.commands now draws) name = _
      rw [lookup_initDue, hp]
      rfl
    · have : (1 : ℚ) ≤ max 1 (draws name) := le_max_left _ _
      linarith
  · intro s' hrun
    cases hlp : lookup s.config.commands name with
    | none =>
      rw [run_once_skip s name true t u (Or.inl hlp)] at hrun
      exact RunOnceResult.noConfusion hrun
    | some q =>
      by_cases hen : q.enabled = false
      · rw [run_once_skip s name true t u (Or.inr ⟨q, hlp, hen⟩)] at hrun
        exact RunOnceResult.noConfusion hrun
      · have hen' : q.enabled = true := by revert hen; cases q.enabled <;> simp
        rw [run_once_sent s name q t u hlp hen'] at hrun
        cases hrun
        rfl
  · show lookup (setKey s.next_due_by_command name (t + u)) name = some (t + u)
    rw [lookup_setKey, if_pos rfl]
  · intro nbs now2 pickIdx jd bd wake nd hrun hbrk hpick
    rw [loopStep_sent s nbs now2 pickIdx t u jd bd wake nd name hrun hbrk hpick]

/-- Witness for C2 amended: construction on `cfgZero` at time 100 with draw 0
stores due time `100 + max 1 0 = 101 ≥ 101`, and a loop send of `"zero"` at
time 100 with draw 0 just applies `sendAndReschedule`. -/
theorem due_time_rules_witness :
    (lookup (initEngine cfgZero 100 (dconst 0)).next_due_by_command "zero"
       = some (100 + max 1 (dconst 0 "zero")) ∧
     (100 : ℚ) + 1 ≤ 100 + max 1 (dconst 0 "zero")) ∧
    (loopStep sZero 500 100 0 true 100 0 3 10 220 50).state
      = sendAndReschedule sZero "zero" 100 0 :=
  ⟨(due_time_rules cfgZero 100 (dconst 0) sZero "zero" zeroProfile 100 0).1 (by decide),
   (due_time_rules cfgZero 100 (dconst 0) sZero "zero" zeroProfile 100 0).2.2.2
     500 100 0 3 10 220 50 rfl (by decide) (by decide)⟩

/-- Counterexample to C5: the claim says a newly introduced action receives a
due time by the same rule as construction, hence at least `now + 1`.  Hot-adding
the zero-cooldown command at time 100 (draw necessarily 0) stores due time
100, not ≥ 101: `update_config` has no `max(1.0, ·)` floor. -/
theorem update_config_floor_counterexample :
    lookup (update_config sReady cfgBoth 100 (dconst 0)).next_due_by_command "zero"
      = some 100 ∧
    ¬ ((100 : ℚ) + 1 ≤ 100) ∧
    zeroProfile.min_delay ≤ dconst 0 "zero" ∧
    dconst 0 "zero" ≤ zeroProfile.max_delay := by
  refine ⟨?_, by norm_num, by norm_num [zeroProfile, dconst], by norm_num [zeroProfile, dconst]⟩
  show lookup (updateDue sReady.next_due_by_command cfgBoth.commands 100 (dconst 0)) "zero"
      = some 100
  rw [lookup_updateDue_new _ _ _ _ _ (by decide) (by decide)]
  norm_num [dconst]

/-- C5 amended: `update_config` swaps in the new configuration, leaves every
already-tracked `next_due` entry unchanged, and assigns each newly introduced
action the due time `now + uniform(min_delay, max_delay)` — the same uniform
draw as construction but without construction's `max(1, ·)` floor, so not
necessarily ≥ `now + 1`. -/
theorem update_config_due_times (s : EngineState) (cfg : AppConfig) (now : ℚ)
    (draws : String → ℚ) (n : String) :
    (update_config s cfg now draws).config = cfg ∧
    (hasKey s.next_due_by_command n = true →
       lookup (update_config s cfg now draws).next_due_by_command n
         = lookup s.next_due_by_command n) ∧
    (hasKey s.next_due_by_command n = false → hasKey cfg.commands n = true →
       lookup (update_config s cfg now draws).next_due_by_command n
         = some (now + draws n)) := by
  refine ⟨rfl, ?_, ?_⟩
  · intro h
    exact lookup_updateDue_existing _ _ _ _ _ h
  · intro h1 h2
    exact lookup_updateDue_new _ _ _ _ _ h1 h2

/-- Witness for C5 amended: hot-adding `"zero"` to `sReady` leaves `"beg"`'s
existing due entry unchanged and seeds `"zero"` at `100 + dconst 0 "zero"`. -/
theorem update_config_due_times_witness :
    lookup (update_config sReady cfgBoth 100 (dconst 0)).next_due_by_command "beg"
      = lookup sReady.next_due_by_command "beg" ∧
    lookup (update_config sReady cfgBoth 100 (dconst 0)).next_due_by_command "zero"
      = some (100 + dconst 0 "zero") :=
  ⟨(update_config_due_times sReady cfgBoth 100 (dconst 0) "beg").2.1 (by decide),
   (update_config_due_times sReady cfgBoth 100 (dconst 0) "zero").2.2 (by decide) (by decide)⟩

/-- Counterexample to C6: the engine does not normalize on ingest — both the
constructor and `update_config` store the configuration exactly as given, so
after `update_config` with `cfgBad` the engine holds a profile with
`max_delay < min_delay`. -/
theorem engine_holds_unnormalized_counterexample :
    (update_config sReady cfgBad 100 (dconst 0)).config = cfgBad ∧
    (initEngine cfgBad 100 (dconst 0)).config = cfgBad ∧
    lookup cfgBad.commands "bad" = some badProfile ∧
    badProfile.max_delay < badProfile.min_delay :=
  ⟨rfl, rfl, by decide, by norm_num [badProfile]⟩

/-- C6 amended: the `max ≥ min` normalization lives in the config layer, not
in the engine: `normalize_config` always succeeds, raising each `max` below
its `min` to that `min`, and its result satisfies `max ≥ min` for the command
interval, both break pairs and every command profile; `FarmEngine.__init__`
and `update_config` store the configuration they are given unmodified. -/
theorem normalize_config_establishes_invariant (c : AppConfig) :
    (normalize_config c).command_interval.min_seconds
      ≤ (normalize_config c).command_interval.max_seconds ∧
    (normalize_config c).break_after_min_minutes
      ≤ (normalize_config c).break_after_max_minutes ∧
    (normalize_config c).break_duration_min_minutes
      ≤ (normalize_config c).break_duration_max_minutes ∧
    (∀ n p, lookup (normalize_config c).commands n = some p →
       p.min_delay ≤ p.max_delay) ∧
    (∀ s now draws, (update_config s c now draws).config = c) ∧
    (∀ now draws, (initEngine c now draws).config = c) := by
  refine ⟨?_, ?_, ?_, ?_, fun _ _ _ => rfl, fun _ _ => rfl⟩
  · show (if c.command_interval.max_seconds < c.command_interval.min_seconds then
        ({ c.command_interval with
            max_seconds := c.command_interval.min_seconds } : CooldownWindow)
      else c.command_interval).min_seconds ≤
      (if c.command_interval.max_seconds < c.command_interval.min_seconds then
        ({ c.command_interval with
            max_seconds := c.command_interval.min_seconds } : CooldownWindow)
      else c.command_interval).max_seconds
    split
    · exact le_refl _
    · next h => exact le_of_not_lt h
  · show c.break_after_min_minutes ≤
      (if c.break_after_max_minutes < c.break_after_min_minutes then
        c.break_after_min_minutes else c.break_after_max_minutes)
    split
    · exact le_refl _
    · next h => exact le_of_not_lt h
  · show c.break_duration_min_minutes ≤
      (if c.break_duration_max_minutes < c.break_duration_min_minutes then
        c.break_duration_min_minutes else c.break_duration_max_minutes)
    split
    · exact le_refl _
    · next h => exact le_of_not_lt h
  · intro n p hp
    have h : lookup (c.commands.map (fun np => (np.1, normalizeProfile np.2))) n
        = (lookup c.commands n).map normalizeProfile := lookup_map_normalize _ _
    rw [show (normalize_config c).commands
        = c.commands.map (fun np => (np.1, normalizeProfile np.2)) from rfl] at hp
    rw [h] at hp
    cases hq : lookup c.commands n with
    | none => rw [hq] at hp; simp at hp
    | some q =>
      rw [hq] at hp
      have hpq : normalizeProfile q = p := by simpa using hp
      rw [← hpq]
      exact normalizeProfile_le q

/-- Witness for C6 amended: normalizing `cfgBad` raises the bad profile's
`max_delay` so that `min_delay ≤ max_delay` holds. -/
theorem normalize_config_establishes_invariant_witness :
    (normalizeProfile badProfile).min_delay ≤ (normalizeProfile badProfile).max_delay :=
  (normalize_config_establishes_invariant cfgBad).2.2.2.1 "bad"
    (normalizeProfile badProfile) (by decide)

/-- Counterexample to C4: with `on_break = true`, `run_once "beg"` still
performs the send and increments the counters — `run_once` never consults
the `on_break` flag, so "no action fires through any path" is false. -/
theorem break_exclusivity_counterexample :
    sOnBreak.on_break = true ∧
    run_once sOnBreak "beg" true 100 50
      = .sent (sendAndReschedule sOnBreak "beg" 100 50) ∧
    (sendAndReschedule sOnBreak "beg" 100 50).sent_total
      = sOnBreak.sent_total + 1 :=
  ⟨rfl, run_once_sent sOnBreak "beg" begProfile 100 50 (by decide) rfl, rfl⟩

/-- C4 amended: while on break no action fires through the loop — a loop
iteration that enters the break branch performs no send, leaving
`sent_total`, the per-command counters and every due time unchanged (the
`on_break` flag is raised only for the duration of that branch's sleep) —
but `run_once` is not gated by `on_break`: even with `on_break = true` it
fires a known enabled action and increments the counters. -/
theorem break_exclusivity (s : EngineState) (nbs now : ℚ) (pickIdx : ℕ)
    (sendOk : Bool) (t u jd bd wake nd : ℚ) (name : String) (p : CommandProfile) :
    (s.running = true → s.config.break_mode = true ∧ nbs ≤ now →
      (loopStep s nbs now pickIdx sendOk t u jd bd wake nd).state.sent_total
          = s.sent_total ∧
      (loopStep s nbs now pickIdx sendOk t u jd bd wake nd).state.sent_by_command
          = s.sent_by_command ∧
      (loopStep s nbs now pickIdx sendOk t u jd bd wake nd).state.next_due_by_command
          = s.next_due_by_command ∧
      (loopStep s nbs now pickIdx sendOk t u jd bd wake nd).outcome
          = .tookBreak (max 1 (bd * 60))) ∧
    (s.on_break = true → lookup s.config.commands name = some p →
      p.enabled = true →
      run_once s name true t u = .sent (sendAndReschedule s name t u) ∧
      (sendAndReschedule s name t u).sent_total = s.sent_total + 1) := by
  constructor
  · intro hrun hbrk
    rw [loopStep_break s nbs now pickIdx sendOk t u jd bd wake nd hrun hbrk]
    exact ⟨rfl, rfl, rfl, rfl⟩
  · intro _ hp hen
    exact ⟨run_once_sent s name p t u hp hen, rfl⟩

/-- Witness for C4 amended: on `sBreakMode` (break mode on, `next_break_start`
already passed) the loop iteration takes a break without sending, and on
`sOnBreak` (flag raised) `run_once "beg"` still sends. -/
theorem break_exclusivity_witness :
    ((loopStep sBreakMode 50 100 0 true 100 50 3 10 220 50).state.sent_total
        = sBreakMode.sent_total ∧
     (loopStep sBreakMode 50 100 0 true 100 50 3 10 220 50).state.sent_by_command
        = sBreakMode.sent_by_command ∧
     (loopStep sBreakMode 50 100 0 true 100 50 3 10 220 50).state.next_due_by_command
        = sBreakMode.next_due_by_command ∧
     (loopStep sBreakMode 50 100 0 true 100 50 3 10 220 50).outcome
        = .tookBreak (max 1 (10 * 60))) ∧
    (run_once sOnBreak "beg" true 100 50
        = .sent (sendAndReschedule sOnBreak "beg" 100 50) ∧
     (sendAndReschedule sOnBreak "beg" 100 50).sent_total
        = sOnBreak.sent_total + 1) :=
  ⟨(break_exclusivity sBreakMode 50 100 0 true 100 50 3 10 220 50 "beg" begProfile).1
      rfl ⟨rfl, by norm_num⟩,
   (break_exclusivity sOnBreak 50 100 0 true 100 50 3 10 220 50 "beg" begProfile).2
      rfl (by decide) rfl⟩

/-- C1 (the loop has no handler): a SendFailure raised by the loop's send is
not caught — the exception escapes the iteration (`crashed`), terminating
the background task — while the state, in particular the failed action's
`next_due` entry and all counters, is left unchanged.  The claim's
"due time not advanced on failure" part holds; its "caught, logged, and
the loop proceeds to its next iteration" part is what the source lacks. -/
theorem loop_send_failure_crashes (s : EngineState) (nbs now : ℚ) (pickIdx : ℕ)
    (t u jd bd wake nd : ℚ) (name : String)
    (hrun : s.running = true)
    (hbrk : ¬ (s.config.break_mode = true ∧ nbs ≤ now))
    (hpick : (dueCommands s now).get? pickIdx = some name) :
    (loopStep s nbs now pickIdx false t u jd bd wake nd).outcome = .crashed ∧
    (loopStep s nbs now pickIdx false t u jd bd wake nd).state = s := by
  rw [loopStep_crashed s nbs now pickIdx t u jd bd wake nd name hrun hbrk hpick]
  exact ⟨rfl, rfl⟩

/-- Witness for C1: on `sReady` (running, `"beg"` due) a failing send crashes
the loop iteration with the state unchanged. -/
theorem loop_send_failure_crashes_witness :
    (loopStep sReady 500 100 0 false 100 50 3 10 220 50).outcome = .crashed ∧
    (loopStep sReady 500 100 0 false 100 50 3 10 220 50).state = sReady :=
  loop_send_failure_crashes sReady 500 100 0 100 50 3 10 220 50 "beg"
    rfl (by decide) (by decide)

theorem step_counters (s s' : EngineState) (h : Step s s') :
    (s'.sent_total = s.sent_total ∧ s'.sent_by_command = s.sent_by_command) ∨
    (∃ name, s'.sent_total = s.sent_total + 1 ∧
       s'.sent_by_command = bump s.sent_by_command name) := by
  cases h with
  | updateCfg cfg now draws => exact Or.inl ⟨rfl, rfl⟩
  | startOp =>
    unfold start
    split <;> exact Or.inl ⟨rfl, rfl⟩
  | stopOp =>
    unfold stop
    split <;> exact Or.inl ⟨rfl, rfl⟩
  | runOnce name sendOk now u =>
    cases hlp : lookup s.config.commands name with
    | none =>
      rw [run_once_skip s name sendOk now u (Or.inl hlp)]
      exact Or.inl ⟨rfl, rfl⟩
    | some p =>
      by_cases hen : p.enabled = false
      · rw [run_once_skip s name sendOk now u (Or.inr ⟨p, hlp, hen⟩)]
        exact Or.inl ⟨rfl, rfl⟩
      · have hen' : p.enabled = true := by revert hen; cases p.enabled <;> simp
        cases sendOk with
        | false =>
          rw [run_once_failed s name p now u hlp hen']
          exact Or.inl ⟨rfl, rfl⟩
        | true =>
          rw [run_once_sent s name p now u hlp hen']
          exact Or.inr ⟨name, rfl, rfl⟩
  | loopIter nbs now pickIdx sendOk t u jd bd wake nd =>
    cases hr : s.running with
    | false =>
      rw [loopStep_exited s nbs now pickIdx sendOk t u jd bd wake nd hr]
      exact Or.inl ⟨rfl, rfl⟩
    | true =>
      by_cases hbrk : s.config.break_mode = true ∧ nbs ≤ now
      · rw [loopStep_break s nbs now pickIdx sendOk t u jd bd wake nd hr hbrk]
        exact Or.inl ⟨rfl, rfl⟩
      · cases hpick : (dueCommands s now).get? pickIdx with
        | none =>
          rw [loopStep_idle s nbs now pickIdx sendOk t u jd bd wake nd hr hbrk hpick]
          exact Or.inl ⟨rfl, rfl⟩
        | some name =>
          cases sendOk with
          | false =>
            rw [loopStep_crashed s nbs now pickIdx t u jd bd wake nd name hr hbrk hpick]
            exact Or.inl ⟨rfl, rfl⟩
          | true =>
            rw [loopStep_sent s nbs now pickIdx t u jd bd wake nd name hr hbrk hpick]
            exact Or.inr ⟨name, rfl, rfl⟩

/-- C10: in every state reachable from a freshly constructed engine by any
sequence of operations, `sent_total` equals the sum of the per-command
counters; and every single operation either leaves `sent_total` and the
per-command counters untouched, or increments `sent_total` and exactly one
per-command counter by one together (every other counter unchanged) — in
particular all counters are non-decreasing. -/
theorem counters_invariant :
    (∀ (cfg : AppConfig) (now : ℚ) (draws : String → ℚ) (s : EngineState),
       Reachable (initEngine cfg now draws) s →
       s.sent_total = sumCounters s.sent_by_command) ∧
    (∀ s s' : EngineState, Step s s' →
       (s'.sent_total = s.sent_total ∧ s'.sent_by_command = s.sent_by_command) ∨
       (∃ name, s'.sent_total = s.sent_total + 1 ∧
          lookupD s'.sent_by_command name 0 = lookupD s.sent_by_command name 0 + 1 ∧
          ∀ m, m ≠ name → lookupD s'.sent_by_command m 0 = lookupD s.sent_by_command m 0)) := by
  constructor
  · intro cfg now draws s hreach
    induction hreach with
    | refl => rfl
    | tail hr hs ih =>
      rcases step_counters _ _ hs with ⟨h1, h2⟩ | ⟨name, h1, h2⟩
      · rw [h1, h2]
        exact ih
      · rw [h1, h2, sumCounters_bump, ih]
  · intro s s' h
    rcases step_counters s s' h with ⟨h1, h2⟩ | ⟨name, h1, h2⟩
    · exact Or.inl ⟨h1, h2⟩
    · refine Or.inr ⟨name, h1, ?_, ?_⟩
      · rw [h2]
        exact lookupD_bump_self _ _
      · intro m hm
        rw [h2]
        exact lookupD_bump_ne _ _ _ hm

/-- Witness for C10: the state reached from a fresh engine on `cfg0` by one
successful `run_once "beg"` satisfies `sent_total = sum of counters`. -/
theorem counters_invariant_witness :
    (run_once (initEngine cfg0 100 (dconst 50)) "beg" true 100 50).state.sent_total
      = sumCounters
        (run_once (initEngine cfg0 100 (dconst 50)) "beg" true 100 50).state.sent_by_command :=
  counters_invariant.1 cfg0 100 (dconst 50) _
    (Reachable.tail (Reachable.refl _)
      (Step.runOnce (initEngine cfg0 100 (dconst 50)) "beg" true 100 50))

end DankOPS
